import Mathlib

/-
  Verification development for the merhongo schema-derivation / validation /
  update-revalidation core.

  Shallow embedding conventions:
  * Go machine integers (`int`, the `Min`/`Max` bounds) are modelled as `Int`;
    `float64` members are modelled as `Rat`, so the comparisons
    `intVal < int64(field.Min)` and `floatVal < float64(field.Min)` become
    exact integer / rational comparisons (both are exact in the source for the
    bound magnitudes involved).
  * Go runtime values that can appear as document members are the inductive
    `Value`.  Composite values are modelled only in the zero/empty forms the
    zero-value synthesizer (`GetZeroValue`) produces, which is all the claims
    exercise.
  * Go maps (`map[string]interface{}`, `bson.M`, schema field maps) are
    association lists with map semantics via `mapGet` / `mapSet` / `mapDel`;
    an insert replaces the binding of an existing key.
  * Struct types are referenced by name through a `TypeEnv` so that
    self-referential record graphs (pointer-to-self, slice-of-self) are
    representable; `GenerateFromStruct`'s recursion into anonymous embedded
    struct fields is given explicit fuel, which lets the development state and
    prove the termination/recursion-depth facts of the source.
  * External collaborators (mongo driver, bson wire format) are modelled at
    the interface the core consumes: `parseObjectId` models
    `primitive.ObjectIDFromHex` (24 hex digits), and the
    marshal/unmarshal round trip of `UpdateById` step 5 is modelled by
    `reconstruct`, which rebuilds a typed instance field-by-field from the
    merged generic map (absent keys become the field type's zero value).
-/

namespace Merhongo

/-- Go type descriptors, as far as `reflect` is consulted by the source.
`structRef` names a struct type whose field list lives in a `TypeEnv`;
`namedT` is a named (custom) non-struct type with nonempty `PkgPath`. -/
inductive GoType where
  | boolT
  | intT
  | uintT
  | floatT
  | stringT
  | sliceT (elem : GoType)
  | arrayT (elem : GoType)
  | ptrT (elem : GoType)
  | mapT (key elem : GoType)
  | ifaceT
  | objectIdT
  | timeT
  | namedT (underlying : GoType)
  | structRef (sname : String)
  deriving DecidableEq

/-- Go runtime values that occur as document members in the modelled fragment.
Composite values appear only in the zero/empty forms produced by
`GetZeroValue`. `vNull` is the absent/nil marker (nil pointer, nil iface). -/
inductive Value where
  | vNull
  | vBool (b : Bool)
  | vInt (n : Int)
  | vUint (n : Nat)
  | vFloat (q : Rat)
  | vStr (s : String)
  | vTime (t : Int)
  | vObjectId (n : Nat)
  | vEmptySlice (elem : GoType)
  | vEmptySliceAny
  | vEmptyMap (key elem : GoType)
  | vStructZero (sname : String)
  | vNamedZero (underlying : GoType)
  deriving DecidableEq

/-- Embedding of `reflect.Value.IsZero` on the modelled value shapes:
zero primitives, nil references, the zero time instant, the all-zero
ObjectID, and zero struct instances count as zero; a constructed empty
slice or map is non-nil, hence not zero. -/
def Value.isZero : Value → Bool
  | .vNull => true
  | .vBool b => !b
  | .vInt n => n == 0
  | .vUint n => n == 0
  | .vFloat q => q == 0
  | .vStr s => s == ""
  | .vTime t => t == 0
  | .vObjectId n => n == 0
  | .vEmptySlice _ => false
  | .vEmptySliceAny => false
  | .vEmptyMap _ _ => false
  | .vStructZero _ => true
  | .vNamedZero _ => true

/-- Embedding of `schema.GetZeroValue` (schema_generate.go).  The source
checks `primitive.ObjectID` first, then any named type (`PkgPath() != ""`,
covering `time.Time`, named structs and custom scalars, all yielding a
zero instance typed as that type), then switches on the kind: primitives
get native zeros, slices an empty slice (a fully dynamic element type gets
a generic empty slice), arrays and pointers and interfaces `nil`, maps an
empty map. -/
def GetZeroValue : GoType → Value
  | .objectIdT => .vObjectId 0
  | .namedT u => .vNamedZero u
  | .structRef n => .vStructZero n
  | .timeT => .vTime 0
  | .boolT => .vBool false
  | .intT => .vInt 0
  | .uintT => .vUint 0
  | .floatT => .vFloat 0
  | .stringT => .vStr ""
  | .sliceT e => if e = .ifaceT then .vEmptySliceAny else .vEmptySlice e
  | .arrayT _ => .vNull
  | .ptrT _ => .vNull
  | .mapT k v => .vEmptyMap k v
  | .ifaceT => .vNull

/-- Association-list lookup with Go map semantics (keys are unique, so the
first binding is the binding). -/
def mapGet {κ α : Type} [DecidableEq κ] : List (κ × α) → κ → Option α
  | [], _ => none
  | (k, v) :: rest, key => if k = key then some v else mapGet rest key

/-- Association-list insert with Go map semantics: replace the binding of an
existing key, otherwise append. -/
def mapSet {κ α : Type} [DecidableEq κ] : List (κ × α) → κ → α → List (κ × α)
  | [], key, v => [(key, v)]
  | (k, w) :: rest, key, v =>
    if k = key then (k, v) :: rest else (k, w) :: mapSet rest key v

/-- Association-list delete with Go map semantics. -/
def mapDel {κ α : Type} [DecidableEq κ] : List (κ × α) → κ → List (κ × α)
  | [], _ => []
  | (k, w) :: rest, key =>
    if k = key then mapDel rest key else (k, w) :: mapDel rest key

/-- A generic document: storage-name-keyed field map (`bson.M` /
`map[string]interface{}` in the source). -/
abbrev Doc := List (String × Value)

/-- Whitespace as `strings.TrimSpace` treats it on the tag fragment the
source feeds it. -/
def isSpaceChar (c : Char) : Bool :=
  c = ' ' || c = '\t' || c = '\n' || c = '\r'

/-- `strings.TrimSpace` on a character list. -/
def trimChars (cs : List Char) : List Char :=
  ((cs.dropWhile isSpaceChar).reverse.dropWhile isSpaceChar).reverse

/-- `strings.HasPrefix` on character lists. -/
def hasPrefixChars : List Char → List Char → Bool
  | [], _ => true
  | _ :: _, [] => false
  | p :: ps, c :: cs => p = c && hasPrefixChars ps cs

/-- `strings.Split` on a single-character separator: splitting the empty
text yields one empty piece, and every separator occurrence starts a new
piece. -/
def goSplit (sep : Char) : List Char → List (List Char)
  | [] => [[]]
  | c :: rest =>
    if c = sep then [] :: goSplit sep rest
    else
      match goSplit sep rest with
      | [] => [[c]]
      | t :: ts => (c :: t) :: ts

/-- Parsed per-field constraint tag, mirroring `schema.SchemaTag`. -/
structure SchemaTag where
  Required : Bool := false
  Unique : Bool := false
  Min : Int := 0
  Max : Int := 0
  Index : Bool := false
  deriving DecidableEq

/-- Longest prefix of decimal digits. -/
def leadingDigits (cs : List Char) : List Char := cs.takeWhile Char.isDigit

/-- Numeric value of a digit string. -/
def digitsToNat (cs : List Char) : Nat :=
  cs.foldl (fun a c => a * 10 + (c.toNat - 48)) 0

/-- Base-10 integer scan as `fmt.Sscanf`'s `%d` performs it: an optional
sign followed by at least one digit; trailing non-digit text is ignored;
no digits means the scan fails. -/
def scanDecInt : List Char → Option Int
  | '-' :: rest =>
    if leadingDigits rest = [] then none
    else some (-(digitsToNat (leadingDigits rest) : Int))
  | '+' :: rest =>
    if leadingDigits rest = [] then none
    else some ((digitsToNat (leadingDigits rest) : Int))
  | cs =>
    if leadingDigits cs = [] then none
    else some ((digitsToNat (leadingDigits cs) : Int))

/-- Embedding of `fmt.Sscanf(opt, "key=%d", &n)` with `n` starting at the
zero value: drop the `keyLen`-character key, scan a decimal integer,
and yield 0 when the scan fails (malformed numeric text). -/
def sscanfTagInt (opt : List Char) (keyLen : Nat) : Int :=
  (scanDecInt (opt.drop keyLen)).getD 0

/-- One iteration of the option loop of `schema.parseSchemaTag`: trim the
token, then try `required` / `unique` / `index` / `min=` / `max=` in the
source's order; unknown tokens leave the accumulator unchanged. -/
def applyTagToken (acc : SchemaTag) (rawOpt : List Char) : SchemaTag :=
  let opt := trimChars rawOpt
  if opt = "required".toList then { acc with Required := true }
  else if opt = "unique".toList then { acc with Unique := true }
  else if opt = "index".toList then { acc with Index := true }
  else if hasPrefixChars "min=".toList opt then { acc with Min := sscanfTagInt opt 4 }
  else if hasPrefixChars "max=".toList opt then { acc with Max := sscanfTagInt opt 4 }
  else acc

/-- Left fold of `applyTagToken` over the comma-separated token list. -/
def parseTagTokens (opts : List (List Char)) (init : SchemaTag) : SchemaTag :=
  opts.foldl applyTagToken init

/-- Embedding of `schema.parseSchemaTag`: the empty tag yields the
all-default record, otherwise the comma-separated token list is processed
left to right. -/
def parseSchemaTag (tag : String) : SchemaTag :=
  if tag = "" then {} else parseTagTokens (goSplit ',' tag.toList) {}

/-- Per-field constraint record, mirroring `schema.Field` of the current
schema package (the revision that carries an `Index` member). -/
structure Field where
  fieldType : Value := .vNull
  Required : Bool := false
  Default : Option Value := none
  Unique : Bool := false
  Index : Bool := false
  Min : Int := 0
  Max : Int := 0
  Enum : List Value := []
  ValidateFunc : Option (Value → Bool) := none

/-- One Go struct field as `reflect.StructField` exposes it to the core:
declared name, exportedness (`PkgPath == ""`), anonymity, the `bson` and
`schema` tags, and the field type. -/
structure GoField where
  fname : String
  exported : Bool := true
  anonymous : Bool := false
  bsonTag : String := ""
  schemaTag : String := ""
  ftype : GoType

/-- Environment binding struct type names to their field lists; this is how
the embedding represents (possibly self-referential) named record types. -/
abbrev TypeEnv := List (String × List GoField)

/-- Schema definition, mirroring `schema.Schema`.  `ModelTypeFields` is the
type witness (`ModelType`): when present it carries the witnessed struct
type's field list, which is what the revalidation pipeline consults.
Middleware lists are outside the modelled fragment (no claim touches them). -/
structure Schema where
  Fields : List (String × Field)
  Timestamps : Bool := true
  Collection : String := ""
  CustomValidator : Option (Doc → Except String Unit) := none
  ModelTypeFields : Option (List GoField) := none

/-- Validation failure detail, one constructor per `errors.WithDetails`
site of `defaultValidation` / `ValidateDocument`. -/
inductive VErr where
  | notStruct
  | requiredNotFound (fieldName : String)
  | requiredEmpty (fieldName : String)
  | belowMin (fieldName : String)
  | aboveMax (fieldName : String)
  | notInEnum (fieldName : String)
  | customFailed (fieldName : String)
  | customValidator (msg : String)
  deriving DecidableEq

/-- The required-field loop of `defaultValidation`: for every constraint
with `Required`, locate the member by its storage (bson) name; a missing
member fails with "not found", a zero-valued member with "is empty"; the
first violation is returned. -/
def checkRequired (doc : Doc) : List (String × Field) → Except VErr Unit
  | [] => .ok ()
  | (fieldName, f) :: rest =>
    if f.Required then
      match mapGet doc fieldName with
      | none => .error (.requiredNotFound fieldName)
      | some v =>
        if v.isZero then .error (.requiredEmpty fieldName)
        else checkRequired doc rest
    else checkRequired doc rest

/-- The numeric-bound check of `defaultValidation`'s second loop.  The
source switches on the member's kind: signed integer kinds compare as
integers, float kinds as floats, every other kind (including unsigned
integers) is not checked at all; a bound equal to zero is skipped. -/
def checkMinMax (fieldName : String) (f : Field) (v : Value) : Except VErr Unit :=
  match v with
  | .vInt n =>
    if f.Min ≠ 0 ∧ n < f.Min then .error (.belowMin fieldName)
    else if f.Max ≠ 0 ∧ n > f.Max then .error (.aboveMax fieldName)
    else .ok ()
  | .vFloat q =>
    if f.Min ≠ 0 ∧ q < (f.Min : Rat) then .error (.belowMin fieldName)
    else if f.Max ≠ 0 ∧ q > (f.Max : Rat) then .error (.aboveMax fieldName)
    else .ok ()
  | _ => .ok ()

/-- The enum check: with a nonempty `Enum`, the member must deep-equal one
of the allowed values. -/
def checkEnum (fieldName : String) (f : Field) (v : Value) : Except VErr Unit :=
  if f.Enum.length > 0 then
    if f.Enum.any (fun e => e = v) then .ok () else .error (.notInEnum fieldName)
  else .ok ()

/-- The custom per-field predicate check. -/
def checkValidateFunc (fieldName : String) (f : Field) (v : Value) : Except VErr Unit :=
  match f.ValidateFunc with
  | some fn => if fn v then .ok () else .error (.customFailed fieldName)
  | none => .ok ()

/-- The second loop of `defaultValidation`: members absent from the
document are skipped; otherwise bounds, enum and custom predicate are
checked in order and the first violation is returned. -/
def checkConstraints (doc : Doc) : List (String × Field) → Except VErr Unit
  | [] => .ok ()
  | (fieldName, f) :: rest =>
    match mapGet doc fieldName with
    | none => checkConstraints doc rest
    | some v =>
      match checkMinMax fieldName f v with
      | .error e => .error e
      | .ok () =>
        match checkEnum fieldName f v with
        | .error e => .error e
        | .ok () =>
          match checkValidateFunc fieldName f v with
          | .error e => .error e
          | .ok () => checkConstraints doc rest

/-- Embedding of `Schema.defaultValidation` on a struct instance presented
as its storage-name-keyed member map (the `bsonToStructField` view the
source builds): the required loop runs first, then the constraint loop. -/
def defaultValidation (s : Schema) (doc : Doc) : Except VErr Unit :=
  match checkRequired doc s.Fields with
  | .error e => .error e
  | .ok () => checkConstraints doc s.Fields

/-- Embedding of `Schema.ValidateDocument`: a caller-supplied
whole-document validator fully replaces the built-in checks, its failure
being wrapped as a validation error; otherwise default validation runs. -/
def ValidateDocument (s : Schema) (doc : Doc) : Except VErr Unit :=
  match s.CustomValidator with
  | some cv =>
    match cv doc with
    | .error msg => .error (.customValidator msg)
    | .ok () => .ok ()
  | none => defaultValidation s doc

/-- Storage-name resolution of `GenerateFromStruct`: the first
comma-separated part of a nonempty `bson` tag when that part is nonempty,
otherwise the declared field name. -/
def storageName (f : GoField) : String :=
  if f.bsonTag ≠ "" then
    match goSplit ',' f.bsonTag.toList with
    | [] => f.fname
    | p :: _ => if p ≠ [] then ⟨p⟩ else f.fname
  else f.fname

/-- The document-identifier skip rule of `GenerateFromStruct`: declared
name `ID`, or a `bson` tag starting with the reserved `_id` marker. -/
def isIdField (f : GoField) : Bool :=
  f.fname = "ID" || hasPrefixChars "_id".toList f.bsonTag.toList

/-- Whether `reflect.Kind()` of the type is `Struct` (named structs and
`time.Time`; `primitive.ObjectID` is a 12-byte array, not a struct). -/
def isStructKind : GoType → Bool
  | .structRef _ => true
  | .timeT => true
  | _ => false

/-- The field definition `GenerateFromStruct` builds for one non-anonymous
field: parse the `schema` tag, synthesize the type's zero value, and set
`Index` when either `index` or `unique` was requested. -/
def mkFieldDef (f : GoField) : Field :=
  let schemaTag := parseSchemaTag f.schemaTag
  { fieldType := GetZeroValue f.ftype
    Required := schemaTag.Required
    Unique := schemaTag.Unique
    Index := schemaTag.Index || schemaTag.Unique
    Min := schemaTag.Min
    Max := schemaTag.Max }

/-- Failure modes of schema generation: `notStruct` models the source's
hard panic on non-struct input; `outOfFuel` marks recursion-budget
exhaustion of the embedding (the source has no such bound — the claims
about it are exactly what the fuel makes provable); `unknownStruct` marks
a struct name dangling outside the `TypeEnv`, which has no Go counterpart. -/
inductive GenErr where
  | notStruct
  | outOfFuel
  | unknownStruct
  deriving DecidableEq

/-- Merging an embedded struct's derived field map into the parent's
accumulator: every embedded entry overwrites an existing binding of the
same storage name (`fields[embeddedFieldName] = embeddedField`). -/
def mergeFields (acc : List (String × Field)) (embedded : List (String × Field)) :
    List (String × Field) :=
  embedded.foldl (fun a kv => mapSet a kv.1 kv.2) acc

/-- The field loop of `GenerateFromStruct`, processing declared fields in
order into the accumulated storage-name-keyed constraint map: skip
unexported fields; skip the document-identifier field; for an anonymous
field of struct kind, recursively derive the embedded struct's map and
merge it in (anonymous fields of any other kind are skipped entirely);
otherwise insert the parsed field definition keyed by storage name.
`fuel` bounds the recursion into embedded structs; every processed field
consumes one unit, so fuel `flds.length` suffices when nothing is embedded. -/
def genFields (env : TypeEnv) : Nat → List GoField → List (String × Field) →
    Except GenErr (List (String × Field))
  | _, [], acc => .ok acc
  | 0, _ :: _, _ => .error .outOfFuel
  | fuel + 1, f :: rest, acc =>
    if !f.exported then genFields env fuel rest acc
    else if isIdField f then genFields env fuel rest acc
    else if f.anonymous then
      if isStructKind f.ftype then
        match f.ftype with
        | .structRef n =>
          match mapGet env n with
          | none => .error .unknownStruct
          | some body =>
            match genFields env fuel body [] with
            | .error e => .error e
            | .ok embedded => genFields env fuel rest (mergeFields acc embedded)
        | _ => genFields env fuel rest acc
      else genFields env fuel rest acc
    else genFields env fuel rest (mapSet acc (storageName f) (mkFieldDef f))

/-- Embedding of `schema.GenerateFromStruct`'s top level: dereference a
pointer input, fail hard unless the result is of struct kind, then run the
field loop (a `time.Time` input has only unexported fields, yielding the
empty map). -/
def generateFromStruct (env : TypeEnv) (fuel : Nat) (t : GoType) :
    Except GenErr (List (String × Field)) :=
  let t' := match t with
    | .ptrT e => e
    | other => other
  match t' with
  | .structRef n =>
    match mapGet env n with
    | none => .error .unknownStruct
    | some body => genFields env fuel body []
  | .timeT => .ok []
  | _ => .error .notStruct

/-- Error kinds surfaced by the model layer, one per `errors.*` kind the
modelled operations wrap with. -/
inductive MErr where
  | invalidObjectId
  | notFound
  | decodeFailed
  | databaseFailed
  | queryBuildFailed
  | updateNotMap
  | validationFailed (e : VErr)
  deriving DecidableEq

/-- Hexadecimal digit test, as `primitive.ObjectIDFromHex` accepts. -/
def isHexChar (c : Char) : Bool :=
  c.isDigit || ('a' ≤ c && c ≤ 'f') || ('A' ≤ c && c ≤ 'F')

/-- Value of a hexadecimal digit. -/
def hexVal (c : Char) : Nat :=
  if c.isDigit then c.toNat - 48
  else if 'a' ≤ c then c.toNat - 87
  else c.toNat - 55

/-- Identifier-collaborator model: `primitive.ObjectIDFromHex` succeeds on
exactly 24 hexadecimal characters; the resulting ObjectID is its numeric
value. -/
def parseObjectId (s : String) : Option Nat :=
  if s.toList.length = 24 ∧ s.toList.all isHexChar then
    some (s.toList.foldl (fun a c => a * 16 + hexVal c) 0)
  else none

/-- The persisted collection: ObjectID-keyed documents. -/
abbrev Store := List (Nat × Doc)

/-- Update payload forms accepted by `Model.prepareUpdate`:
`map[string]interface{}` / `bson.M` / `bson.D` all normalize to a key-value
list (a `bson.D` may repeat keys; the copy loop makes later entries win);
any other payload type is rejected. -/
inductive UpdateArg where
  | umap (entries : List (String × Value))
  | other

/-- Folding raw entries into a Go map: later bindings of a key replace
earlier ones. -/
def normalizeEntries (entries : List (String × Value)) : Doc :=
  entries.foldl (fun acc kv => mapSet acc kv.1 kv.2) []

/-- Embedding of `Model.prepareUpdate`: normalize the payload into map
form (non-map payloads fail with a validation-kind error), strip the
`createdAt` / `CreatedAt` keys, and inject `updatedAt := now` when the
schema has timestamps enabled (`now` is the clock collaborator's answer). -/
def prepareUpdate (s : Schema) (now : Int) (update : UpdateArg) : Except MErr Doc :=
  match update with
  | .other => .error .updateNotMap
  | .umap entries =>
    let finalUpdate := normalizeEntries entries
    let finalUpdate := mapDel finalUpdate "createdAt"
    let finalUpdate := mapDel finalUpdate "CreatedAt"
    let finalUpdate :=
      if s.Timestamps then mapSet finalUpdate "updatedAt" (.vTime now)
      else finalUpdate
    .ok finalUpdate

/-- Overlaying an update map onto a document snapshot: update values win
on key collision (`existingDoc[key] = value` for every update entry). -/
def overlay (base upd : Doc) : Doc :=
  upd.foldl (fun acc kv => mapSet acc kv.1 kv.2) base

/-- The storage key `bson.Unmarshal` fills a struct field from: the first
part of a nonempty `bson` tag when usable (`-` means never), otherwise the
lowercased declared name (the driver's default); `none` means the field is
not populated from the document. -/
def unmarshalKey (f : GoField) : Option String :=
  if f.bsonTag ≠ "" then
    match goSplit ',' f.bsonTag.toList with
    | [] => none
    | p :: _ => if p ≠ [] ∧ p ≠ ['-'] then some ⟨p⟩ else none
  else some ⟨f.fname.toList.map Char.toLower⟩

/-- The key under which `defaultValidation`'s `bsonToStructField` map
exposes a struct field: the first part of a nonempty `bson` tag when it is
neither empty nor `-`, otherwise the declared field name; `none` means the
field is invisible to validation. -/
def validationKey (f : GoField) : Option String :=
  if f.bsonTag ≠ "" then
    match goSplit ',' f.bsonTag.toList with
    | [] => none
    | p :: _ => if p ≠ [] ∧ p ≠ ['-'] then some ⟨p⟩ else none
  else some f.fname

/-- Wire-format-collaborator model of `UpdateById` step 5: marshalling the
merged generic map and unmarshalling it into a fresh instance of the
witnessed struct type rebuilds, member by member, the value each struct
field receives (the document's value under the field's storage key, or the
field type's zero value when absent), presented under the field's
validation key.  Cross-type decode failures are outside the modelled
fragment. -/
def reconstruct (wfields : List GoField) (src : Doc) : Doc :=
  wfields.foldl
    (fun acc f =>
      if !f.exported then acc
      else
        match validationKey f with
        | none => acc
        | some vk =>
          let v := match unmarshalKey f with
            | none => GetZeroValue f.ftype
            | some uk => (mapGet src uk).getD (GetZeroValue f.ftype)
          mapSet acc vk v)
    []

/-- `UpdateOne` with a `$set` document on the `_id` filter: the matching
document absorbs exactly the update fields. -/
def applySetOne (st : Store) (oid : Nat) (upd : Doc) : Store :=
  st.map (fun kv => if kv.1 = oid then (kv.1, overlay kv.2 upd) else kv)

/-- Embedding of `Model.UpdateById` (the revision with the revalidation
pipeline): parse the identifier; fetch the current document as a generic
map (not-found when absent); normalize the update via `prepareUpdate`;
overlay it onto the snapshot; when the schema carries a type witness,
rebuild a typed instance from the merged map and validate it, aborting
with the validation error before any write; only then issue the `$set`
write with the normalized update fields.  The returned pair is the
operation outcome and the store after the call. -/
def UpdateById (s : Schema) (st : Store) (now : Int) (id : String)
    (update : UpdateArg) : Except MErr Unit × Store :=
  match parseObjectId id with
  | none => (.error .invalidObjectId, st)
  | some oid =>
    match mapGet st oid with
    | none => (.error .notFound, st)
    | some existingDoc =>
      match prepareUpdate s now update with
      | .error e => (.error e, st)
      | .ok finalUpdate =>
        let merged := overlay existingDoc finalUpdate
        match s.ModelTypeFields with
        | some wfields =>
          match ValidateDocument s (reconstruct wfields merged) with
          | .error e => (.error (.validationFailed e), st)
          | .ok () => (.ok (), applySetOne st oid finalUpdate)
        | none => (.ok (), applySetOne st oid finalUpdate)

/-- A query builder's `Build()` outcome: a stored error, or a filter
(modelled as a predicate over identifier and document). -/
inductive QueryBuild where
  | qerr
  | qok (filt : Nat → Doc → Bool)

/-- Embedding of `Model.UpdateWithQuery` (model_query.go): build the
filter, wrap a plain map update in `$set`, and issue one bulk `UpdateMany`
against every matching document.  The source performs no validation and no
revalidation in this path; the returned count is the number of matched
documents. -/
def UpdateWithQuery (s : Schema) (st : Store) (qb : QueryBuild)
    (update : List (String × Value)) : Except MErr Nat × Store :=
  match qb with
  | .qerr => (.error .queryBuildFailed, st)
  | .qok pred =>
    let upd := normalizeEntries update
    let st' := st.map (fun kv => if pred kv.1 kv.2 then (kv.1, overlay kv.2 upd) else kv)
    (.ok (st.filter (fun kv => pred kv.1 kv.2)).length, st')

/-! ## Concrete scenario data -/

/-- The scenario-C field: a string field tagged
`schema:"required,unique,min=2,max=100"`. -/
def scenarioCField : GoField :=
  { fname := "Name", schemaTag := "required,unique,min=2,max=100", ftype := .stringT }

/-- The numeric reading of a member value, exactly as the bounds check
sees it: signed integers and floats are numeric; unsigned integers and
every other shape fall outside the check. -/
def numValue : Value → Option Rat
  | .vInt n => some (n : Rat)
  | .vFloat q => some q
  | _ => none

/-- Scenario-B schema: a required `name` field. -/
def scenarioBSchema : Schema := { Fields := [("name", { Required := true })] }

/-- Scenario-B document state after overlaying the update `{name: ""}`. -/
def scenarioBDoc : Doc := [("name", .vStr "")]

/-- A schema with a non-zero lower bound on `age` (for the bounds claim). -/
def c4Schema : Schema := { Fields := [("age", { Min := 20 })] }

/-- A document whose `age` lies below that bound. -/
def c4Doc : Doc := [("age", .vInt 10)]

/-- A schema whose `age` bounds are both the zero sentinel (unconstrained). -/
def c4ZeroSchema : Schema := { Fields := [("age", { Min := 0, Max := 0 })] }

/-- A document with a negative `age`, accepted under the zero sentinel. -/
def c4ZeroDoc : Doc := [("age", .vInt (-5))]

/-- The witnessed struct type of the scenario-A model: an `_id` field plus
an `Age` field stored under `age`. -/
def c1WitnessFields : List GoField :=
  [{ fname := "ID", bsonTag := "_id,omitempty", ftype := .objectIdT },
   { fname := "Age", bsonTag := "age", ftype := .intT }]

/-- Scenario-A schema: `age ∈ [18,100]`, carrying the type witness. -/
def c1Schema : Schema :=
  { Fields := [("age", { Min := 18, Max := 100 })],
    Timestamps := false,
    ModelTypeFields := some c1WitnessFields }

/-- The scenario-A persisted document. -/
def c1StoredDoc : Doc := [("_id", .vObjectId 1), ("age", .vInt 25)]

/-- Scenario-A store: one document with `age = 25` under ObjectID 1. -/
def c1Store : Store := [(1, c1StoredDoc)]

/-- Scenario-A identifier: the 24-hex-digit string of ObjectID 1. -/
def c1Id : String := "000000000000000000000001"

/-- The scenario-A schema with timestamps enabled (for the normalization
and frame claim). -/
def c10Schema : Schema :=
  { Fields := [("age", { Min := 18, Max := 100 })],
    Timestamps := true,
    ModelTypeFields := some c1WitnessFields }

/-- An update payload that keeps `age` in range but also tries to tamper
with the creation timestamp. -/
def c10Entries : List (String × Value) := [("age", .vInt 30), ("createdAt", .vTime 99)]

/-- The normalized form of `c10Entries` under `c10Schema` at clock 7:
the `createdAt` tampering is stripped and `updatedAt` injected. -/
def c10FinalUpdate : Doc := [("age", .vInt 30), ("updatedAt", .vTime 7)]

/-- The bulk-update payload pushing `age` out of range. -/
def c2Update : List (String × Value) := [("age", .vInt 130)]

/-- A predicate matching every document. -/
def c2Pred : Nat → Doc → Bool := fun _ _ => true

/-- Scenario-E environment: `Address{Street string required}` embedded
anonymously in `Customer`. -/
def c6Env : TypeEnv :=
  [("Address", [{ fname := "Street", schemaTag := "required", ftype := .stringT }]),
   ("Customer",
    [{ fname := "ID", bsonTag := "_id,omitempty", ftype := .objectIdT },
     { fname := "Address", anonymous := true, ftype := .structRef "Address" },
     { fname := "Name", schemaTag := "required", ftype := .stringT }])]

/-- The anonymous embedded `Address` field of `Customer`. -/
def c6AddressField : GoField :=
  { fname := "Address", anonymous := true, ftype := .structRef "Address" }

/-- The `Name` field of `Customer`. -/
def c6NameField : GoField :=
  { fname := "Name", schemaTag := "required", ftype := .stringT }

/-- The scenario-E derived map: the embedded `Street` constraint followed
by `Name`, with no `Address` entry. -/
def c6Expected : List (String × Field) :=
  [("Street", { fieldType := .vStr "", Required := true }),
   ("Name", { fieldType := .vStr "", Required := true })]

/-- The field list of the scenario-F self-referential record: identifier,
a required name, a pointer-to-self member and a slice-of-self member
(`RecursiveStruct` of the repository's tests). -/
def c8Body : List GoField :=
  [{ fname := "ID", bsonTag := "_id,omitempty", ftype := .objectIdT },
   { fname := "Name", schemaTag := "required", ftype := .stringT },
   { fname := "Parent", ftype := .ptrT (.structRef "RecursiveStruct") },
   { fname := "Children", ftype := .sliceT (.structRef "RecursiveStruct") }]

/-- Scenario-F environment binding the self-referential record. -/
def c8Env : TypeEnv := [("RecursiveStruct", c8Body)]

/-- The derived scenario-F constraint map: the self-referential members
resolve to the absent marker and the typed empty slice. -/
def c8Expected : List (String × Field) :=
  [("Name", { fieldType := .vStr "", Required := true }),
   ("Parent", { fieldType := .vNull }),
   ("Children", { fieldType := .vEmptySlice (.structRef "RecursiveStruct") })]

/-- An identifier-typed field under its reserved `_id` storage tag (used to
witness the identifier-skip claim). -/
def c9IdField : GoField := { fname := "ID", bsonTag := "_id,omitempty", ftype := .objectIdT }

/-! ## Helper lemmas on the tag parser -/

theorem applyTagToken_Required (acc : SchemaTag) (o : List Char) :
    ((applyTagToken acc o).Required = true) ↔
      (acc.Required = true ∨ trimChars o = "required".toList) := by
  simp only [applyTagToken]
  repeat' split
  all_goals simp_all

theorem parseTagTokens_Required (toks : List (List Char)) (init : SchemaTag) :
    ((parseTagTokens toks init).Required = true) ↔
      (init.Required = true ∨ ∃ o ∈ toks, trimChars o = "required".toList) := by
  induction toks generalizing init with
  | nil => simp [parseTagTokens]
  | cons t ts ih =>
    simp only [parseTagTokens, List.foldl_cons] at *
    rw [ih, applyTagToken_Required]
    simp only [List.mem_cons]
    constructor
    · rintro ((h | h) | ⟨o, ho, h⟩)
      · exact Or.inl h
      · exact Or.inr ⟨t, Or.inl rfl, h⟩
      · exact Or.inr ⟨o, Or.inr ho, h⟩
    · rintro (h | ⟨o, (rfl | ho), h⟩)
      · exact Or.inl (Or.inl h)
      · exact Or.inl (Or.inr h)
      · exact Or.inr ⟨o, ho, h⟩

theorem applyTagToken_Min_skip (acc : SchemaTag) (o : List Char)
    (h : hasPrefixChars "min=".toList (trimChars o) = false) :
    (applyTagToken acc o).Min = acc.Min := by
  simp only [applyTagToken]
  repeat' split
  all_goals simp_all

theorem applyTagToken_Min_set (acc : SchemaTag) (o : List Char)
    (h : hasPrefixChars "min=".toList (trimChars o) = true) :
    (applyTagToken acc o).Min = sscanfTagInt (trimChars o) 4 := by
  have h1 : trimChars o ≠ "required".toList := by
    intro he; rw [he] at h; exact absurd h (by decide)
  have h2 : trimChars o ≠ "unique".toList := by
    intro he; rw [he] at h; exact absurd h (by decide)
  have h3 : trimChars o ≠ "index".toList := by
    intro he; rw [he] at h; exact absurd h (by decide)
  simp only [applyTagToken, if_neg h1, if_neg h2, if_neg h3, h, if_pos]

theorem parseTagTokens_Min_skip (toks : List (List Char)) (init : SchemaTag)
    (h : ∀ o ∈ toks, hasPrefixChars "min=".toList (trimChars o) = false) :
    (parseTagTokens toks init).Min = init.Min := by
  induction toks generalizing init with
  | nil => rfl
  | cons t ts ih =>
    simp only [parseTagTokens, List.foldl_cons] at *
    rw [ih _ (fun o ho => h o (List.mem_cons_of_mem t ho)),
      applyTagToken_Min_skip init t (h t (List.mem_cons_self t ts))]

theorem hasPrefix_min_of_max (s : List Char)
    (h : hasPrefixChars "max=".toList s = true) :
    hasPrefixChars "min=".toList s = false := by
  have e1 : "max=".toList = ['m', 'a', 'x', '='] := rfl
  have e2 : "min=".toList = ['m', 'i', 'n', '='] := rfl
  rw [e1] at h
  rw [e2]
  cases s with
  | nil => simp [hasPrefixChars] at h
  | cons a t =>
    cases t with
    | nil => simp [hasPrefixChars] at h
    | cons b t2 =>
      simp only [hasPrefixChars, Bool.and_eq_true, decide_eq_true_eq] at h
      obtain ⟨hm, hb, hrest⟩ := h
      subst hb
      simp [hasPrefixChars]

theorem applyTagToken_Max_skip (acc : SchemaTag) (o : List Char)
    (h : hasPrefixChars "max=".toList (trimChars o) = false) :
    (applyTagToken acc o).Max = acc.Max := by
  simp only [applyTagToken]
  repeat' split
  all_goals simp_all

theorem applyTagToken_Max_set (acc : SchemaTag) (o : List Char)
    (h : hasPrefixChars "max=".toList (trimChars o) = true) :
    (applyTagToken acc o).Max = sscanfTagInt (trimChars o) 4 := by
  have h1 : trimChars o ≠ "required".toList := by
    intro he; rw [he] at h; exact absurd h (by decide)
  have h2 : trimChars o ≠ "unique".toList := by
    intro he; rw [he] at h; exact absurd h (by decide)
  have h3 : trimChars o ≠ "index".toList := by
    intro he; rw [he] at h; exact absurd h (by decide)
  have h4 := hasPrefix_min_of_max _ h
  simp only [applyTagToken, if_neg h1, if_neg h2, if_neg h3, h4, h]
  simp

theorem parseTagTokens_Max_skip (toks : List (List Char)) (init : SchemaTag)
    (h : ∀ o ∈ toks, hasPrefixChars "max=".toList (trimChars o) = false) :
    (parseTagTokens toks init).Max = init.Max := by
  induction toks generalizing init with
  | nil => rfl
  | cons t ts ih =>
    simp only [parseTagTokens, List.foldl_cons] at *
    rw [ih _ (fun o ho => h o (List.mem_cons_of_mem t ho)),
      applyTagToken_Max_skip init t (h t (List.mem_cons_self t ts))]

/-! ## Claim C5 -/

/-- C5: for every field in a derived schema, `Required` is true exactly
when the field's constraint tag contains the `required` token, and
`Unique` implies `Index`; in particular the tag string
`"required,unique,min=2,max=100"` yields the field constraint
`{Required:true, Unique:true, Index:true, Min:2, Max:100}`. -/
theorem generated_field_required_unique_index (f : GoField) :
    ((mkFieldDef f).Required = true ↔
      ∃ o ∈ goSplit ',' f.schemaTag.toList, trimChars o = "required".toList) ∧
    ((mkFieldDef f).Unique = true → (mkFieldDef f).Index = true) ∧
    (mkFieldDef scenarioCField =
      { fieldType := .vStr "", Required := true, Unique := true, Index := true, Min := 2, Max := 100 }) := by
  refine ⟨?_, ?_, rfl⟩
  · by_cases h : f.schemaTag = ""
    · simp only [mkFieldDef, parseSchemaTag, h, if_pos]
      constructor
      · intro hc; exact absurd hc (by decide)
      · rintro ⟨o, ho, hr⟩
        have : goSplit ',' "".toList = [[]] := rfl
        rw [this] at ho
        simp only [List.mem_singleton] at ho
        subst ho
        exact absurd hr (by decide)
    · simp only [mkFieldDef, parseSchemaTag, if_neg h]
      rw [parseTagTokens_Required]
      simp
  · intro h
    simp only [mkFieldDef] at *
    rw [h, Bool.or_true]

/-- Witness for C5 at the scenario-C tag: both the `required` direction and
`Unique ⇒ Index` are discharged on the concrete field. -/
theorem generated_field_required_unique_index_witness :
    (mkFieldDef scenarioCField).Required = true ∧
    (mkFieldDef scenarioCField).Index = true := by
  constructor
  · exact (generated_field_required_unique_index scenarioCField).1.mpr
      ⟨"required".toList, by decide, by decide⟩
  · exact (generated_field_required_unique_index scenarioCField).2.1 (by rfl)

/-! ## Claim C7 -/

/-- C7: duplicate tag keys resolve to the last occurrence.  For any tag
string whose token list ends its `min=` (resp. `max=`) occurrences at a
given token, the parsed `Min` (resp. `Max`) is that token's scanned value;
in particular `"min=18,min=21"` parses to `Min = 21` (witness).  The three
boolean tokens can only be set, never cleared, so duplicates of those are
idempotent and the last occurrence trivially decides them. -/
theorem parseSchemaTag_lastWins (tag : String) (toks1 toks2 : List (List Char))
    (tok : List Char) :
    ((goSplit ',' tag.toList = toks1 ++ tok :: toks2) →
      hasPrefixChars "min=".toList (trimChars tok) = true →
      (∀ o ∈ toks2, hasPrefixChars "min=".toList (trimChars o) = false) →
      (parseSchemaTag tag).Min = sscanfTagInt (trimChars tok) 4) ∧
    ((goSplit ',' tag.toList = toks1 ++ tok :: toks2) →
      hasPrefixChars "max=".toList (trimChars tok) = true →
      (∀ o ∈ toks2, hasPrefixChars "max=".toList (trimChars o) = false) →
      (parseSchemaTag tag).Max = sscanfTagInt (trimChars tok) 4) := by
  have hsplit : tag ≠ "" → parseSchemaTag tag =
      parseTagTokens (goSplit ',' tag.toList) {} := by
    intro h; simp [parseSchemaTag, h]
  have hempty : ∀ (h1 : goSplit ',' tag.toList = toks1 ++ tok :: toks2),
      tag = "" → tok = [] := by
    intro h1 he
    subst he
    have : goSplit ',' "".toList = [[]] := rfl
    rw [this] at h1
    cases toks1 with
    | nil =>
      simp only [List.nil_append] at h1
      injection h1 with ha hb
      exact ha.symm
    | cons a l =>
      simp only [List.cons_append] at h1
      have := congrArg List.length h1
      simp at this
  constructor
  · intro h1 h2 h3
    by_cases he : tag = ""
    · have := hempty h1 he
      rw [this] at h2
      exact absurd h2 (by decide)
    · rw [hsplit he, h1]
      simp only [parseTagTokens, List.foldl_append, List.foldl_cons]
      rw [← parseTagTokens, ← parseTagTokens, parseTagTokens_Min_skip _ _ h3,
        applyTagToken_Min_set _ _ h2]
  · intro h1 h2 h3
    by_cases he : tag = ""
    · have := hempty h1 he
      rw [this] at h2
      exact absurd h2 (by decide)
    · rw [hsplit he, h1]
      simp only [parseTagTokens, List.foldl_append, List.foldl_cons]
      rw [← parseTagTokens, ← parseTagTokens, parseTagTokens_Max_skip _ _ h3,
        applyTagToken_Max_set _ _ h2]

/-- Witness for C7 at the scenario-D tag string `"min=18,min=21"`. -/
theorem parseSchemaTag_lastWins_witness :
    (parseSchemaTag "min=18,min=21").Min = 21 := by
  have h := (parseSchemaTag_lastWins "min=18,min=21" ["min=18".toList] []
      "min=21".toList).1 (by decide) (by decide) (by simp)
  rw [h]
  decide

/-! ## Helper lemmas on association-list maps -/

theorem mapGet_mapSet_self {κ α : Type} [DecidableEq κ] (d : List (κ × α)) (k : κ) (v : α) :
    mapGet (mapSet d k v) k = some v := by
  induction d with
  | nil => simp [mapGet, mapSet]
  | cons p rest ih =>
    obtain ⟨k1, v1⟩ := p
    by_cases h : k1 = k
    · subst h; simp [mapSet, mapGet]
    · simp [mapSet, mapGet, h, ih]

theorem mapGet_mapSet_ne {κ α : Type} [DecidableEq κ] (d : List (κ × α)) (k1 k : κ) (v : α)
    (h : k1 ≠ k) : mapGet (mapSet d k1 v) k = mapGet d k := by
  induction d with
  | nil => simp [mapGet, mapSet, h]
  | cons p rest ih =>
    obtain ⟨k2, v2⟩ := p
    by_cases h2 : k2 = k1
    · subst h2; simp [mapSet, mapGet, h]
    · by_cases h3 : k2 = k
      · subst h3; simp [mapSet, mapGet, h2]
      · simp [mapSet, mapGet, h2, h3, ih]

theorem mapGet_mapDel_self {κ α : Type} [DecidableEq κ] (d : List (κ × α)) (k : κ) :
    mapGet (mapDel d k) k = none := by
  induction d with
  | nil => simp [mapGet, mapDel]
  | cons p rest ih =>
    obtain ⟨k1, v1⟩ := p
    by_cases h : k1 = k
    · subst h; simp [mapDel, ih]
    · simp [mapDel, mapGet, h, ih]

theorem mapGet_mapDel_ne {κ α : Type} [DecidableEq κ] (d : List (κ × α)) (k1 k : κ)
    (h : k1 ≠ k) : mapGet (mapDel d k1) k = mapGet d k := by
  induction d with
  | nil => simp [mapGet, mapDel]
  | cons p rest ih =>
    obtain ⟨k2, v2⟩ := p
    by_cases h2 : k2 = k1
    · subst h2; simp [mapDel, mapGet, h, ih]
    · by_cases h3 : k2 = k
      · subst h3; simp [mapDel, mapGet, h2]
      · simp [mapDel, mapGet, h2, h3, ih]

theorem mapGet_overlay_of_absent (base u : Doc) (k : String)
    (h : mapGet u k = none) : mapGet (overlay base u) k = mapGet base k := by
  induction u generalizing base with
  | nil => rfl
  | cons p rest ih =>
    obtain ⟨k1, v1⟩ := p
    by_cases h1 : k1 = k
    · subst h1; simp [mapGet] at h
    · simp only [mapGet, if_neg h1] at h
      simp only [overlay, List.foldl_cons]
      rw [← overlay, ih _ h, mapGet_mapSet_ne _ _ _ _ h1]

theorem mapGet_cons {κ α : Type} [DecidableEq κ] (k : κ) (v : α)
    (rest : List (κ × α)) (key : κ) :
    mapGet ((k, v) :: rest) key = if k = key then some v else mapGet rest key := rfl

theorem mapGet_applySetOne_self (st : Store) (oid : Nat) (u : Doc) :
    mapGet (applySetOne st oid u) oid = (mapGet st oid).map (fun d => overlay d u) := by
  induction st with
  | nil => rfl
  | cons p rest ih =>
    obtain ⟨k1, d1⟩ := p
    simp only [applySetOne, List.map_cons] at ih ⊢
    by_cases h : k1 = oid
    · subst h
      simp [mapGet_cons]
    · simp [mapGet_cons, h, ih]

theorem mapGet_applySetOne_ne (st : Store) (oid oid2 : Nat) (u : Doc)
    (h : oid2 ≠ oid) : mapGet (applySetOne st oid u) oid2 = mapGet st oid2 := by
  induction st with
  | nil => rfl
  | cons p rest ih =>
    obtain ⟨k1, d1⟩ := p
    simp only [applySetOne, List.map_cons] at ih ⊢
    by_cases h1 : k1 = oid
    · subst h1
      have hne : ¬ k1 = oid2 := fun he => h he.symm
      simp [mapGet_cons, hne, ih]
    · by_cases h2 : k1 = oid2
      · subst h2
        simp [mapGet_cons, h1]
      · simp [mapGet_cons, h1, h2, ih]

/-! ## Claim C3 -/

theorem checkRequired_fails (doc : Doc) (fields : List (String × Field))
    (h : ∃ p ∈ fields, p.2.Required = true ∧
      (mapGet doc p.1 = none ∨ ∃ v, mapGet doc p.1 = some v ∧ v.isZero = true)) :
    ∃ nm, checkRequired doc fields = .error (.requiredNotFound nm) ∨
          checkRequired doc fields = .error (.requiredEmpty nm) := by
  induction fields with
  | nil => simp at h
  | cons p0 rest ih =>
    obtain ⟨nm, f⟩ := p0
    cases hfr : f.Required with
    | false =>
      simp only [checkRequired, hfr, Bool.false_eq_true, if_false]
      apply ih
      obtain ⟨p, hp, hreq, hor⟩ := h
      rcases List.mem_cons.mp hp with rfl | hp2
      · rw [hfr] at hreq; cases hreq
      · exact ⟨p, hp2, hreq, hor⟩
    | true =>
      simp only [checkRequired, hfr, if_true]
      cases hm : mapGet doc nm with
      | none => exact ⟨nm, Or.inl rfl⟩
      | some v =>
        cases hz : v.isZero with
        | true => simp only [hz, if_true]; exact ⟨nm, Or.inr rfl⟩
        | false =>
          simp only [hz, Bool.false_eq_true, if_false]
          apply ih
          obtain ⟨p, hp, hreq, hor⟩ := h
          rcases List.mem_cons.mp hp with rfl | hp2
          · exfalso
            rcases hor with hnone | ⟨w, hw, hwz⟩
            · rw [hm] at hnone; cases hnone
            · rw [hm] at hw
              injection hw with hw
              rw [← hw] at hwz
              rw [hz] at hwz
              cases hwz
          · exact ⟨p, hp2, hreq, hor⟩

/-- C3: in default structural validation, whenever some `Required` field
constraint finds its member (located by storage name) absent or equal to
its type's zero value, validation fails and the reported error is of the
required-missing/required-empty family (the required loop runs before all
other checks); in particular a required string member set to the empty
string is rejected (witness, scenario B). -/
theorem defaultValidation_required_fails (s : Schema) (doc : Doc)
    (h : ∃ p ∈ s.Fields, p.2.Required = true ∧
      (mapGet doc p.1 = none ∨ ∃ v, mapGet doc p.1 = some v ∧ v.isZero = true)) :
    ∃ nm, defaultValidation s doc = .error (.requiredNotFound nm) ∨
          defaultValidation s doc = .error (.requiredEmpty nm) := by
  obtain ⟨nm, hc⟩ := checkRequired_fails doc s.Fields h
  refine ⟨nm, ?_⟩
  rcases hc with hc | hc
  · exact Or.inl (by simp only [defaultValidation, hc])
  · exact Or.inr (by simp only [defaultValidation, hc])

/-- Witness for C3, scenario B: a required `name` updated to the empty
string is rejected as required-empty. -/
theorem defaultValidation_required_fails_witness :
    ∃ nm, defaultValidation scenarioBSchema scenarioBDoc = .error (.requiredNotFound nm) ∨
          defaultValidation scenarioBSchema scenarioBDoc = .error (.requiredEmpty nm) :=
  defaultValidation_required_fails scenarioBSchema scenarioBDoc
    ⟨("name", { Required := true }), List.mem_singleton.mpr rfl, rfl,
      Or.inr ⟨.vStr "", rfl, rfl⟩⟩

/-! ## Claim C4 -/

theorem defaultValidation_ok_constraints (s : Schema) (doc : Doc)
    (h : defaultValidation s doc = .ok ()) :
    checkConstraints doc s.Fields = .ok () := by
  simp only [defaultValidation] at h
  cases hcr : checkRequired doc s.Fields with
  | error e => rw [hcr] at h; cases h
  | ok u => cases u; rw [hcr] at h; exact h

theorem checkConstraints_ok_sound (doc : Doc) (fields : List (String × Field))
    (h : checkConstraints doc fields = .ok ()) :
    ∀ p ∈ fields, ∀ v, mapGet doc p.1 = some v → checkMinMax p.1 p.2 v = .ok () := by
  induction fields with
  | nil => intro p hp; cases hp
  | cons p0 rest ih =>
    obtain ⟨nm, f⟩ := p0
    intro p hp v hv
    simp only [checkConstraints] at h
    split at h
    · rename_i hm
      rcases List.mem_cons.mp hp with rfl | hp2
      · rw [hv] at hm; cases hm
      · exact ih h p hp2 v hv
    · rename_i w hm
      split at h
      · exact Except.noConfusion h
      · rename_i hcm
        split at h
        · exact Except.noConfusion h
        · rename_i hce
          split at h
          · exact Except.noConfusion h
          · rename_i hcv
            rcases List.mem_cons.mp hp with rfl | hp2
            · rw [hv] at hm
              injection hm with hm
              subst hm
              exact hcm
            · exact ih h p hp2 v hv

theorem checkMinMax_ok_sound (nm : String) (f : Field) (v : Value) (q : Rat)
    (hok : checkMinMax nm f v = .ok ()) (hq : numValue v = some q) :
    (f.Min = 0 ∨ (f.Min : Rat) ≤ q) ∧ (f.Max = 0 ∨ q ≤ (f.Max : Rat)) := by
  cases v with
  | vInt n =>
    simp only [numValue, Option.some.injEq] at hq
    subst hq
    simp only [checkMinMax] at hok
    by_cases h1 : f.Min ≠ 0 ∧ n < f.Min
    · rw [if_pos h1] at hok; cases hok
    · rw [if_neg h1] at hok
      by_cases h2 : f.Max ≠ 0 ∧ n > f.Max
      · rw [if_pos h2] at hok; cases hok
      · push_neg at h1 h2
        constructor
        · by_cases hz : f.Min = 0
          · exact Or.inl hz
          · refine Or.inr ?_
            have := h1 hz
            exact_mod_cast this
        · by_cases hz : f.Max = 0
          · exact Or.inl hz
          · refine Or.inr ?_
            have := h2 hz
            exact_mod_cast this
  | vFloat qq =>
    simp only [numValue, Option.some.injEq] at hq
    subst hq
    simp only [checkMinMax] at hok
    by_cases h1 : f.Min ≠ 0 ∧ qq < (f.Min : Rat)
    · rw [if_pos h1] at hok; cases hok
    · rw [if_neg h1] at hok
      by_cases h2 : f.Max ≠ 0 ∧ qq > (f.Max : Rat)
      · rw [if_pos h2] at hok; cases hok
      · push_neg at h1 h2
        constructor
        · by_cases hz : f.Min = 0
          · exact Or.inl hz
          · exact Or.inr (h1 hz)
        · by_cases hz : f.Max = 0
          · exact Or.inl hz
          · exact Or.inr (h2 hz)
  | vNull => simp [numValue] at hq
  | vBool b => simp [numValue] at hq
  | vUint n => simp [numValue] at hq
  | vStr t => simp [numValue] at hq
  | vTime t => simp [numValue] at hq
  | vObjectId n => simp [numValue] at hq
  | vEmptySlice e => simp [numValue] at hq
  | vEmptySliceAny => simp [numValue] at hq
  | vEmptyMap k e => simp [numValue] at hq
  | vStructZero n2 => simp [numValue] at hq
  | vNamedZero u => simp [numValue] at hq

/-- C4: a `Min` or `Max` bound equal to zero imposes no constraint (the
bounds check can never report a min violation under `Min = 0` nor a max
violation under `Max = 0`, so `Min: 0` never rejects zero-or-negative
values), while a non-zero bound violated by a numeric member — signed
integer or float, read through `numValue` — forces default validation to
fail. -/
theorem defaultValidation_bounds (s : Schema) (doc : Doc) :
    (∀ nm f v nm2, f.Min = 0 → checkMinMax nm f v ≠ .error (.belowMin nm2)) ∧
    (∀ nm f v nm2, f.Max = 0 → checkMinMax nm f v ≠ .error (.aboveMax nm2)) ∧
    (∀ p ∈ s.Fields, ∀ v q, mapGet doc p.1 = some v → numValue v = some q →
      ((p.2.Min ≠ 0 ∧ q < (p.2.Min : Rat)) ∨ (p.2.Max ≠ 0 ∧ q > (p.2.Max : Rat)) →
        ∃ e, defaultValidation s doc = .error e)) := by
  refine ⟨?_, ?_, ?_⟩
  · intro nm f v nm2 hmin
    cases v <;> simp [checkMinMax, hmin] <;> split <;> simp
  · intro nm f v nm2 hmax
    cases v <;> simp [checkMinMax, hmax] <;> split <;> simp
  · intro p hp v q hv hq hviol
    cases hdv : defaultValidation s doc with
    | error e => exact ⟨e, rfl⟩
    | ok u =>
      cases u
      exfalso
      have hcc := defaultValidation_ok_constraints s doc hdv
      have hcm := checkConstraints_ok_sound doc s.Fields hcc p hp v hv
      have hs := checkMinMax_ok_sound p.1 p.2 v q hcm hq
      rcases hviol with ⟨hne, hlt⟩ | ⟨hne, hgt⟩
      · rcases hs.1 with hz | hle
        · exact hne hz
        · exact absurd hlt (not_lt.mpr hle)
      · rcases hs.2 with hz | hle
        · exact hne hz
        · exact absurd hgt (not_lt.mpr hle)

/-- Witness for C4: `age = 10` under `Min = 20` makes validation fail,
while `age = -5` under the zero sentinel bounds passes. -/
theorem defaultValidation_bounds_witness :
    (∃ e, defaultValidation c4Schema c4Doc = .error e) ∧
    defaultValidation c4ZeroSchema c4ZeroDoc = .ok () := by
  constructor
  · exact (defaultValidation_bounds c4Schema c4Doc).2.2 ("age", { Min := 20 })
      (List.mem_singleton.mpr rfl) (.vInt 10) ((10 : Int) : Rat) rfl rfl
      (Or.inl ⟨by decide, by norm_num⟩)
  · rfl

/-! ## Claim C1 -/

/-- C1: for a single-document update by identifier on a schema carrying a
type witness, once the pipeline reaches revalidation (identifier parsed,
document fetched, payload normalized) the merged post-update document is
rebuilt as a typed instance and validated before any write; a validation
failure makes the operation return the validation error and leaves the
store — hence the persisted document — exactly as it was. -/
theorem updateById_revalidation_noWrite (s : Schema) (st : Store) (now : Int)
    (id : String) (update : UpdateArg) (oid : Nat) (doc fu : Doc)
    (wfields : List GoField) (e : VErr)
    (hid : parseObjectId id = some oid)
    (hdoc : mapGet st oid = some doc)
    (hprep : prepareUpdate s now update = .ok fu)
    (hw : s.ModelTypeFields = some wfields)
    (hval : ValidateDocument s (reconstruct wfields (overlay doc fu)) = .error e) :
    UpdateById s st now id update = (.error (.validationFailed e), st) := by
  simp only [UpdateById, hid, hdoc, hprep, hw, hval]

/-- Witness for C1, scenario A: `age ∈ [18,100]`, persisted `age = 25`,
update `{age: 130}` is rejected as validation-failed and a re-fetch still
shows `age = 25`. -/
theorem updateById_revalidation_noWrite_witness :
    UpdateById c1Schema c1Store 0 c1Id (.umap [("age", .vInt 130)]) =
      (.error (.validationFailed (.aboveMax "age")), c1Store) ∧
    mapGet (UpdateById c1Schema c1Store 0 c1Id (.umap [("age", .vInt 130)])).2 1 =
      some [("_id", .vObjectId 1), ("age", .vInt 25)] := by
  constructor
  · exact updateById_revalidation_noWrite c1Schema c1Store 0 c1Id
      (.umap [("age", .vInt 130)]) 1 c1StoredDoc [("age", .vInt 130)]
      c1WitnessFields (.aboveMax "age") rfl rfl rfl rfl rfl
  · rfl

/-! ## Claim C10 -/

/-- C10: the normalized update of a single-document update by identifier
never contains the creation-timestamp keys (`createdAt` / `CreatedAt`
are stripped), gains the fresh modification timestamp `updatedAt := now`
when timestamps are enabled, and on success the `$set` write applies
exactly the normalized fields: the updated document is the overlay of the
snapshot with the normalized update, every key outside the normalized
update keeps its previous value, and every other document is untouched. -/
theorem updateById_normalization_frame (s : Schema) (now : Int)
    (entries : List (String × Value)) (fu : Doc)
    (hprep : prepareUpdate s now (.umap entries) = .ok fu) :
    mapGet fu "createdAt" = none ∧
    mapGet fu "CreatedAt" = none ∧
    (s.Timestamps = true → mapGet fu "updatedAt" = some (.vTime now)) ∧
    (∀ st oid id doc res, parseObjectId id = some oid → mapGet st oid = some doc →
      UpdateById s st now id (.umap entries) = (.ok (), res) →
      mapGet res oid = some (overlay doc fu) ∧
      (∀ k, mapGet fu k = none → mapGet (overlay doc fu) k = mapGet doc k) ∧
      (∀ oid2, oid2 ≠ oid → mapGet res oid2 = mapGet st oid2)) := by
  have hfu : fu =
      (if s.Timestamps then
        mapSet (mapDel (mapDel (normalizeEntries entries) "createdAt") "CreatedAt")
          "updatedAt" (.vTime now)
      else mapDel (mapDel (normalizeEntries entries) "createdAt") "CreatedAt") := by
    simp only [prepareUpdate] at hprep
    injection hprep with hprep
    exact hprep.symm
  refine ⟨?_, ?_, ?_, ?_⟩
  · rw [hfu]
    by_cases ht : s.Timestamps
    · rw [if_pos ht, mapGet_mapSet_ne _ _ _ _ (by decide),
        mapGet_mapDel_ne _ _ _ (by decide), mapGet_mapDel_self]
    · rw [if_neg ht, mapGet_mapDel_ne _ _ _ (by decide), mapGet_mapDel_self]
  · rw [hfu]
    by_cases ht : s.Timestamps
    · rw [if_pos ht, mapGet_mapSet_ne _ _ _ _ (by decide), mapGet_mapDel_self]
    · rw [if_neg ht, mapGet_mapDel_self]
  · intro ht
    rw [hfu, if_pos ht, mapGet_mapSet_self]
  · intro st oid id doc res hpid hdoc hupd
    have hres : res = applySetOne st oid fu := by
      simp only [UpdateById, hpid, hdoc, hprep] at hupd
      cases hw : s.ModelTypeFields with
      | none =>
        simp only [hw] at hupd
        injection hupd with h1 h2
        exact h2.symm
      | some wfields =>
        simp only [hw] at hupd
        cases hv : ValidateDocument s (reconstruct wfields (overlay doc fu)) with
        | error e =>
          simp only [hv] at hupd
          injection hupd with h1 h2
          exact Except.noConfusion h1
        | ok u =>
          cases u
          simp only [hv] at hupd
          injection hupd with h1 h2
          exact h2.symm
    subst hres
    refine ⟨?_, ?_, ?_⟩
    · rw [mapGet_applySetOne_self, hdoc]
      rfl
    · intro k hk
      exact mapGet_overlay_of_absent doc fu k hk
    · intro oid2 h2
      exact mapGet_applySetOne_ne st oid oid2 fu h2

/-- Witness for C10 at a concrete in-range update that also tries to set
`createdAt`: the normalized update strips it, carries the fresh
`updatedAt`, and the written document is the overlay of the snapshot with
exactly those normalized fields. -/
theorem updateById_normalization_frame_witness :
    mapGet c10FinalUpdate "createdAt" = none ∧
    mapGet c10FinalUpdate "updatedAt" = some (.vTime 7) ∧
    mapGet (UpdateById c10Schema c1Store 7 c1Id (.umap c10Entries)).2 1 =
      some (overlay c1StoredDoc c10FinalUpdate) ∧
    mapGet (overlay c1StoredDoc c10FinalUpdate) "_id" = mapGet c1StoredDoc "_id" := by
  have h := updateById_normalization_frame c10Schema 7 c10Entries c10FinalUpdate rfl
  have h2 := h.2.2.2 c1Store 1 c1Id c1StoredDoc
      (UpdateById c10Schema c1Store 7 c1Id (.umap c10Entries)).2 rfl rfl rfl
  exact ⟨h.1, h.2.2.1 rfl, h2.1, h2.2.1 "_id" rfl⟩

/-! ## Claim C2 -/

theorem mapGet_bulkSet (st : Store) (pred : Nat → Doc → Bool) (u : Doc) (oid : Nat) :
    mapGet (st.map (fun kv => if pred kv.1 kv.2 then (kv.1, overlay kv.2 u) else kv)) oid =
      (mapGet st oid).map (fun d => if pred oid d then overlay d u else d) := by
  induction st with
  | nil => rfl
  | cons p rest ih =>
    obtain ⟨k1, d1⟩ := p
    simp only [List.map_cons]
    by_cases h : k1 = oid
    · subst h
      cases hp : pred k1 d1 <;> simp [mapGet_cons, hp]
    · cases hp : pred k1 d1 <;> simp [mapGet_cons, hp, h, ih]

/-- C2 counterexample, refuting the claim as stated: with the scenario-A
schema (age bounded by 100, type witness present) and the single persisted
document carrying `age = 25`, the bulk update `{age: 130}` by an
all-matching predicate makes every matching document fail revalidation of
its overlaid state — yet `UpdateWithQuery` reports success and issues the
write, leaving `age = 130` persisted.  No overlay-and-revalidate stage
exists in this code path. -/
theorem updateWithQuery_claim_counterexample :
    ValidateDocument c1Schema
        (reconstruct c1WitnessFields (overlay c1StoredDoc (normalizeEntries c2Update))) =
      .error (.aboveMax "age") ∧
    UpdateWithQuery c1Schema c1Store (.qok c2Pred) c2Update =
      (.ok 1, [(1, [("_id", .vObjectId 1), ("age", .vInt 130)])]) :=
  ⟨rfl, rfl⟩

/-- C2 amended: a multi-document update by predicate performs no
revalidation at all — it builds the filter, wraps the map update in a
`$set`, and issues the single bulk write directly, so the operation
succeeds and every matching document absorbs the update fields regardless
of whether the overlaid state satisfies the schema. -/
theorem updateWithQuery_writes_without_revalidation (s : Schema) (st : Store)
    (pred : Nat → Doc → Bool) (entries : List (String × Value)) (oid : Nat) (doc : Doc)
    (hdoc : mapGet st oid = some doc) (hp : pred oid doc = true) :
    (∃ n, (UpdateWithQuery s st (.qok pred) entries).1 = .ok n) ∧
    mapGet (UpdateWithQuery s st (.qok pred) entries).2 oid =
      some (overlay doc (normalizeEntries entries)) := by
  constructor
  · exact ⟨_, rfl⟩
  · show mapGet (st.map _) oid = _
    rw [mapGet_bulkSet st pred (normalizeEntries entries) oid, hdoc]
    simp [hp]

/-- Witness for the amended C2: the scenario store's matching document is
overwritten with the out-of-range value. -/
theorem updateWithQuery_writes_without_revalidation_witness :
    mapGet (UpdateWithQuery c1Schema c1Store (.qok c2Pred) c2Update).2 1 =
      some (overlay c1StoredDoc (normalizeEntries c2Update)) :=
  (updateWithQuery_writes_without_revalidation c1Schema c1Store c2Pred c2Update 1
    c1StoredDoc rfl rfl).2

/-! ## Claim C6 -/

/-- C6: processing an anonymous embedded record field recursively derives
the embedded record's map and merges its entries into the parent's
accumulator — adding no entry under the embedded field's own name — while
an anonymous field of non-record kind is skipped entirely; merged entries
are inserted with replace-on-collision semantics, so a later-processed
field wins; scenario E: `Address{Street string required}` embedded in
`Customer` yields a required `Street` constraint and no `Address` entry. -/
theorem genFields_embedded_merge (env : TypeEnv) (fuel : Nat) (f : GoField)
    (rest : List GoField) (acc : List (String × Field)) :
    (f.exported = true → isIdField f = false → f.anonymous = true →
      ∀ n body embedded, f.ftype = .structRef n → mapGet env n = some body →
        genFields env fuel body [] = .ok embedded →
        genFields env (fuel + 1) (f :: rest) acc =
          genFields env fuel rest (mergeFields acc embedded)) ∧
    (f.anonymous = true → isStructKind f.ftype = false →
      genFields env (fuel + 1) (f :: rest) acc = genFields env fuel rest acc) ∧
    (∀ k fd, mapGet (mapSet acc k fd) k = some fd) ∧
    (generateFromStruct c6Env 3 (.structRef "Customer") = .ok c6Expected ∧
      mapGet c6Expected "Street" = some { fieldType := .vStr "", Required := true } ∧
      mapGet c6Expected "Address" = none) := by
  refine ⟨?_, ?_, fun k fd => mapGet_mapSet_self acc k fd, rfl, rfl, rfl⟩
  · intro hexp hid hanon n body embedded hft henv hemb
    simp [genFields, hexp, hid, hanon, hft, isStructKind, henv, hemb]
  · intro hanon hsk
    by_cases hexp : f.exported = true
    · by_cases hid : isIdField f = true
      · simp [genFields, hexp, hid]
      · simp only [Bool.not_eq_true] at hid
        simp [genFields, hexp, hid, hanon, hsk]
    · simp only [Bool.not_eq_true] at hexp
      simp [genFields, hexp]

/-- Witness for C6: the embedded-merge step evaluated on the concrete
`Customer` field list. -/
theorem genFields_embedded_merge_witness :
    genFields c6Env 2 (c6AddressField :: [c6NameField]) [] =
      genFields c6Env 1 [c6NameField]
        (mergeFields [] [("Street", { fieldType := .vStr "", Required := true })]) :=
  (genFields_embedded_merge c6Env 1 c6AddressField [c6NameField] []).1 rfl rfl rfl
    "Address" [{ fname := "Street", schemaTag := "required", ftype := .stringT }]
    [("Street", { fieldType := .vStr "", Required := true })] rfl rfl rfl

/-! ## Claim C8 -/

theorem genFields_no_embedded (env : TypeEnv) (flds : List GoField)
    (hf : ∀ f ∈ flds, ¬(f.anonymous = true ∧ isStructKind f.ftype = true)) :
    ∀ fuel acc, flds.length ≤ fuel →
      genFields env fuel flds acc = genFields env flds.length flds acc ∧
      ∃ r, genFields env fuel flds acc = .ok r := by
  induction flds with
  | nil =>
    intro fuel acc _
    cases fuel with
    | zero => exact ⟨rfl, ⟨acc, rfl⟩⟩
    | succ m => exact ⟨rfl, ⟨acc, rfl⟩⟩
  | cons f rest ih =>
    intro fuel acc hle
    simp only [List.length_cons] at hle ⊢
    obtain ⟨fuel2, rfl⟩ : ∃ m, fuel = m + 1 := ⟨fuel - 1, by omega⟩
    have hle2 : rest.length ≤ fuel2 := by omega
    have hfr : ∀ g ∈ rest, ¬(g.anonymous = true ∧ isStructKind g.ftype = true) :=
      fun g hg => hf g (List.mem_cons_of_mem f hg)
    have hhead := hf f (List.mem_cons_self f rest)
    have hstep : ∃ acc2, ∀ k,
        genFields env (k + 1) (f :: rest) acc = genFields env k rest acc2 := by
      by_cases hexp : f.exported = true
      · by_cases hid : isIdField f = true
        · exact ⟨acc, fun k => by simp [genFields, hexp, hid]⟩
        · simp only [Bool.not_eq_true] at hid
          by_cases hanon : f.anonymous = true
          · have hsk : isStructKind f.ftype = false := by
              cases hv : isStructKind f.ftype
              · rfl
              · exact absurd ⟨hanon, hv⟩ hhead
            exact ⟨acc, fun k => by simp [genFields, hexp, hid, hanon, hsk]⟩
          · simp only [Bool.not_eq_true] at hanon
            exact ⟨mapSet acc (storageName f) (mkFieldDef f),
              fun k => by simp [genFields, hexp, hid, hanon]⟩
      · simp only [Bool.not_eq_true] at hexp
        exact ⟨acc, fun k => by simp [genFields, hexp]⟩
    obtain ⟨acc2, hstep⟩ := hstep
    rw [hstep fuel2, hstep rest.length]
    exact ih hfr fuel2 acc2 hle2

/-- C8: schema derivation and zero-value synthesis terminate, on
self-referential record graphs in particular: a pointer member synthesizes
the absent marker and a slice-of-record member the typed empty slice, both
without consulting the referenced record; for any record whose fields
embed no anonymous sub-record, derivation succeeds with a result
independent of any recursion budget at least the field count (no nested
schema is re-derived); scenario F derives the self-referential record at
every sufficient budget. -/
theorem generation_terminates_selfRef :
    (∀ t, GetZeroValue (.ptrT t) = .vNull) ∧
    (∀ sname, GetZeroValue (.sliceT (.structRef sname)) = .vEmptySlice (.structRef sname)) ∧
    (∀ env flds acc, (∀ f ∈ flds, ¬(f.anonymous = true ∧ isStructKind f.ftype = true)) →
      ∀ fuel, flds.length ≤ fuel →
        genFields env fuel flds acc = genFields env flds.length flds acc ∧
        ∃ r, genFields env fuel flds acc = .ok r) ∧
    (∀ fuel, 4 ≤ fuel →
      generateFromStruct c8Env fuel (.structRef "RecursiveStruct") = .ok c8Expected) := by
  refine ⟨fun t => rfl, fun sname => by simp [GetZeroValue], ?_, ?_⟩
  · intro env flds acc hf fuel hle
    exact genFields_no_embedded env flds hf fuel acc hle
  · intro fuel hle
    have hgen : generateFromStruct c8Env fuel (.structRef "RecursiveStruct") =
        genFields c8Env fuel c8Body [] := rfl
    have hlen : c8Body.length ≤ fuel := by
      have : c8Body.length = 4 := rfl
      omega
    have h := (genFields_no_embedded c8Env c8Body (by decide) fuel [] hlen).1
    rw [hgen, h]
    rfl

/-- Witness for C8: scenario F evaluated at the minimal sufficient
recursion budget. -/
theorem generation_terminates_selfRef_witness :
    generateFromStruct c8Env 4 (.structRef "RecursiveStruct") = .ok c8Expected :=
  generation_terminates_selfRef.2.2.2 4 (by decide)

/-! ## Claim C9 -/

/-- C9: the derived field-constraint map never gains an entry for the
document-identifier field — a field whose declared name is `ID` or whose
storage tag starts with `_id` is skipped by the generation loop, which
continues with the remaining fields and the accumulator unchanged. -/
theorem genFields_skips_idField (env : TypeEnv) (fuel : Nat) (f : GoField)
    (rest : List GoField) (acc : List (String × Field))
    (h : isIdField f = true) :
    genFields env (fuel + 1) (f :: rest) acc = genFields env fuel rest acc := by
  by_cases hexp : f.exported = true
  · simp [genFields, hexp, h]
  · simp only [Bool.not_eq_true] at hexp
    simp [genFields, hexp]

/-- Witness for C9: the `_id`-tagged identifier field of the concrete
customer record contributes nothing. -/
theorem genFields_skips_idField_witness :
    genFields c6Env 2 (c9IdField :: [c6NameField]) [] =
      genFields c6Env 1 [c6NameField] [] :=
  genFields_skips_idField c6Env 1 c9IdField [c6NameField] [] (by decide)

end Merhongo
